import Mathlib

/-!
# Verification of `utils` (security-scanner-check)

Shallow embedding of `src/utils/utils.go`.

Modelling conventions
* A Go `string` is modelled by a Lean `String`, read as its sequence of Unicode code
  points (what `range s` and `[]rune(s)` yield), and a `rune` by a `Char`, wherever the
  code treats the text as opaque or the claim speaks of code points. The conversion
  `string(body)` of a byte slice is the identity. For `InsertRune`, whose result
  depends on how ill-formed bytes and invalid runes are decoded and written, a string is
  its list of bytes and a rune is an integer.
* `time.Time` is an integer number of nanoseconds on an ideal time line, `time.Duration`
  is a signed 64-bit number of nanoseconds (wrap-around arithmetic made explicit).
* A Go `map[string]V` is an association list with pairwise different keys; the order of
  the list is the (arbitrary) iteration order of `range`.
* Stateful code passes its state explicitly: a response carries its unread body stream,
  the HTTP helpers carry the log of requests sent through the client, the request
  builder carries the log of RPC calls.
* Library calls whose code is not part of the package (`json.Unmarshal`, `json.Marshal`,
  `http.NewRequest`, `url.Values.Encode`, `client.Do`, `rpc.Client.Call`,
  `unicode.IsDigit`, `time.Now`) are parameters of the definitions.
* Logging and context cancellation are not modelled.
-/

namespace Utils

/-! ## Time: `IsExpired` -/

/-- Two's-complement wrap-around of an integer into the signed 64-bit range. -/
def wrapInt64 (x : Int) : Int := (x + 2 ^ 63) % 2 ^ 64 - 2 ^ 63

/-- The constant `time.Second`, in nanoseconds. -/
def Second : Int := 1000000000

/-- Source: `IsExpired` (utils.go 222-226). `now` is the value of `time.Now()`;
`expirationTimeInSeconds` is an `int64`, its product with `time.Second` is an `int64`
(`time.Duration`) computed with wrap-around. -/
def IsExpired (now : Int) (creationTime : Int) (expirationTimeInSeconds : Int) : Bool :=
  let expirationDuration := wrapInt64 (wrapInt64 expirationTimeInSeconds * Second)
  let expirationTime := creationTime + expirationDuration
  decide (expirationTime < now)

/-! ## Strings as code points: `ReverseString` -/

/-- The loop `for i, j := 0, len(runes)-1; i < j; i, j = i+1, j-1` of `ReverseString`,
with the body `runes[i], runes[j] = runes[j], runes[i]`. Indices are Go `int`s. -/
def swapLoop (runes : List Char) (i j : Int) : List Char :=
  if i < j then
    let a := runes.getD i.toNat default
    let b := runes.getD j.toNat default
    swapLoop ((runes.set i.toNat b).set j.toNat a) (i + 1) (j - 1)
  else runes
termination_by (j - i).toNat
decreasing_by omega

/-- Source: `ReverseString` (utils.go 384-390). -/
def ReverseString (input : String) : String :=
  let runes := input.toList
  String.mk (swapLoop runes 0 ((runes.length : Int) - 1))

/-! ## Strings as bytes: `InsertRune`

`InsertRune` decodes its input with `range` and writes runes with `WriteRune`; both
substitute U+FFFD for what is not well-formed. Here a Go string is its sequence of bytes
(numbers below 256) and a `rune` (int32) is an integer. -/

/-- The constant `utf8.RuneError`, U+FFFD. -/
def RuneError : Nat := 0xFFFD

/-- A continuation byte: between `locb` (0x80) and `hicb` (0xBF). -/
def isContinuation (b : Nat) : Bool := 0x80 ≤ b && b ≤ 0xBF

/-- The Go runtime's `decoderune` on the rest of the string `s`, which starts with a byte
of at least 0x80: the rune and the number of bytes it takes. -/
def decoderune (s : List Nat) : Nat × Nat :=
  match s with
  | [] => (RuneError, 1)
  | b0 :: rest =>
    if 0xC0 ≤ b0 ∧ b0 < 0xE0 then
      match rest with
      | b1 :: _ =>
        if isContinuation b1 then
          let r := ((b0 &&& 0x1F) <<< 6) ||| (b1 &&& 0x3F)
          if 0x7F < r then (r, 2) else (RuneError, 1)
        else (RuneError, 1)
      | _ => (RuneError, 1)
    else if 0xE0 ≤ b0 ∧ b0 < 0xF0 then
      match rest with
      | b1 :: b2 :: _ =>
        if isContinuation b1 && isContinuation b2 then
          let r := ((b0 &&& 0x0F) <<< 12) ||| ((b1 &&& 0x3F) <<< 6) ||| (b2 &&& 0x3F)
          if 0x7FF < r ∧ ¬ (0xD800 ≤ r ∧ r ≤ 0xDFFF) then (r, 3) else (RuneError, 1)
        else (RuneError, 1)
      | _ => (RuneError, 1)
    else if 0xF0 ≤ b0 ∧ b0 < 0xF8 then
      match rest with
      | b1 :: b2 :: b3 :: _ =>
        if isContinuation b1 && isContinuation b2 && isContinuation b3 then
          let r := ((b0 &&& 0x07) <<< 18) ||| ((b1 &&& 0x3F) <<< 12) |||
            ((b2 &&& 0x3F) <<< 6) ||| (b3 &&& 0x3F)
          if 0xFFFF < r ∧ r ≤ 0x10FFFF then (r, 4) else (RuneError, 1)
        else (RuneError, 1)
      | _ => (RuneError, 1)
    else (RuneError, 1)

/-- The runes `for _, char := range input` yields, in order. `skip` is the number of
bytes still covered by the rune decoded last; at a rune boundary a byte below 0x80 is
its own rune, any other byte starts a call of `decoderune`. -/
def rangeFrom : Nat → List Nat → List Int
  | _, [] => []
  | skip + 1, _ :: rest => rangeFrom skip rest
  | 0, b0 :: rest =>
    if b0 < 0x80 then (b0 : Int) :: rangeFrom 0 rest
    else ((decoderune (b0 :: rest)).1 : Int) :: rangeFrom ((decoderune (b0 :: rest)).2 - 1) rest

/-- The three-byte form written by `utf8.AppendRune`. -/
def encode3 (i : Nat) : List Nat :=
  [0xE0 ||| ((i >>> 12) % 256), 0x80 ||| (((i >>> 6) % 256) &&& 0x3F),
   0x80 ||| ((i % 256) &&& 0x3F)]

/-- The bytes `utf8.AppendRune` appends for the rune `r`; `i` is `uint32(r)`, and in
every branch that shifts `r` the two are equal. A surrogate or a value above U+10FFFF
(also a negative `r`) is written as U+FFFD. -/
def encodeRune (r : Int) : List Nat :=
  let i : Nat := (r % 4294967296).toNat
  if i ≤ 0x7F then [i % 256]
  else if i ≤ 0x7FF then [0xC0 ||| ((i >>> 6) % 256), 0x80 ||| ((i % 256) &&& 0x3F)]
  else if 0x10FFFF < i ∨ (0xD800 ≤ i ∧ i ≤ 0xDFFF) then encode3 RuneError
  else if i ≤ 0xFFFF then encode3 i
  else [0xF0 ||| ((i >>> 18) % 256), 0x80 ||| (((i >>> 12) % 256) &&& 0x3F),
        0x80 ||| (((i >>> 6) % 256) &&& 0x3F), 0x80 ||| ((i % 256) &&& 0x3F)]

/-- State of the loop of `InsertRune`: the builder's content and the flag `inserted`. -/
structure InsertState where
  searchString : List Nat
  inserted : Bool

/-- One iteration of the loop body of `InsertRune`; `WriteRune` appends `encodeRune`. -/
def insertStep (isDigit : Int → Bool) (runeOption : Int) (st : InsertState) (char : Int) :
    InsertState :=
  let st1 : InsertState :=
    if isDigit char && !st.inserted then
      { searchString := st.searchString ++ encodeRune runeOption, inserted := true }
    else st
  { st1 with searchString := st1.searchString ++ encodeRune char }

/-- Source: `InsertRune` (utils.go 392-404); `isDigit` is `unicode.IsDigit`. -/
def InsertRune (isDigit : Int → Bool) (input : List Nat) (runeOption : Int) : List Nat :=
  ((rangeFrom 0 input).foldl (insertStep isDigit runeOption)
    { searchString := [], inserted := false }).searchString

/-- The rune of a Unicode scalar value. -/
def runeOf (c : Char) : Int := (c.toNat : Int)

/-- The well-formed UTF-8 string with the code points `cs`. -/
def utf8 : List Char → List Nat
  | [] => []
  | c :: cs => encodeRune (runeOf c) ++ utf8 cs

/-- The predicate `unicode.IsDigit` on the runes below U+0080 and on U+FFFD, which are
the runes of the examples: the ASCII digits. -/
def asciiDigit (r : Int) : Bool := 0x30 ≤ r && r ≤ 0x39

/-! ## Errors and HTTP responses -/

/-- One element of `CISLError.Violations`. -/
structure Violation where
  ClassID : String
  ErrorCode : String
  Message : String
  MessageType : String
  PropertyPath : String
  Severity : String
deriving DecidableEq

/-- Source: `CISLError` (utils.go 47-58). -/
structure CISLError where
  ClassID : String
  Count : Int
  Violations : List Violation
deriving DecidableEq

/-- The Go zero value of `CISLError`. -/
def CISLError.zero : CISLError := { ClassID := "", Count := 0, Violations := [] }

/-- Source: `StatusCodeError` (utils.go 31-37). -/
structure StatusCodeError where
  Code : Int
  Status : String
  ResponseMessage : String
  CISLError : CISLError
deriving DecidableEq

/-- Source: `StatusCodeError.Error` (utils.go 39-41). -/
def StatusCodeError.Error (t : StatusCodeError) : String := t.ResponseMessage

/-- Source: `StatusCodeError.HTTPStatusCode` (utils.go 43-45). -/
def StatusCodeError.HTTPStatusCode (t : StatusCodeError) : Int := t.Code

/-- A Go `error` value: a `StatusCodeError`, or any other error (transport, read, JSON). -/
inductive GoError where
  | statusCode (e : StatusCodeError)
  | other (msg : String)
deriving DecidableEq

/-- An `*http.Response`. `Body` is the unread body stream: the bytes a read to the end
delivers, or the error such a read reports. -/
structure Response where
  StatusCode : Int
  Status : String
  Body : Except String String

/-- The constant `http.StatusOK`. -/
def StatusOK : Int := 200

/-- `io.ReadAll(resp.Body)`: delivers the pending content and leaves the stream drained. -/
def readAll (resp : Response) : Except String String × Response :=
  match resp.Body with
  | .ok body => (.ok body, { resp with Body := .ok "" })
  | .error err => (.error err, resp)

/-- `strings.ReplaceAll(s, "\n", " ")`. -/
def replaceNewlines (s : String) : String :=
  String.mk (s.toList.map fun c => if c = '\n' then ' ' else c)

/-- One iteration of the loop over the violations (utils.go 79-83): the accumulator is
(`combinedErrorsMessage`, `combinedPropertyPath`), `i` is the loop index. -/
def violationStep (acc : String × String) (iv : Nat × Violation) : String × String :=
  (acc.1 ++ (Nat.repr (iv.1 + 1) ++ ": " ++ iv.2.Message ++ "\n"),
   acc.2 ++ (Nat.repr (iv.1 + 1) ++ ": " ++ iv.2.PropertyPath ++ "\n"))

/-- The message built from a non-empty list of violations (utils.go 77-86). -/
def violationsMessage (violations : List Violation) : String :=
  let combined := violations.enum.foldl violationStep ("", "")
  let combinedErrorsMessage := combined.1
  let combinedPropertyPath := combined.2
  let errorMessage := "violationPropertyPaths=\x7b" ++ combinedPropertyPath ++
    "\x7d\n\n\n\nviolationMessages=\x7b" ++ combinedErrorsMessage ++ "\x7d"
  replaceNewlines errorMessage

/-- Source: `checkStatusCode` (utils.go 61-93). `unmarshal` is `json.Unmarshal` into a
`CISLError` (`none` when it reports an error). Returns the error (`none` for `nil`)
and the response with its body stream as the call leaves it. -/
def checkStatusCode (unmarshal : String → Option CISLError) (resp : Response) :
    Option GoError × Response :=
  if resp.StatusCode ≠ StatusOK then
    match readAll resp with
    | (.error err, resp) => (some (.other err), resp)
    | (.ok body, resp) =>
      match unmarshal body with
      | none =>
        (some (.statusCode { Code := resp.StatusCode, Status := resp.Status,
                             ResponseMessage := body, CISLError := CISLError.zero }), resp)
      | some errorResponse =>
        if errorResponse.ClassID = "" then
          (some (.statusCode { Code := resp.StatusCode, Status := resp.Status,
                               ResponseMessage := body, CISLError := CISLError.zero }), resp)
        else if errorResponse.Violations.length > 0 then
          (some (.statusCode { Code := resp.StatusCode, Status := resp.Status,
                               ResponseMessage := violationsMessage errorResponse.Violations,
                               CISLError := CISLError.zero }), resp)
        else (none, resp)
  else (none, resp)

/-- Entries numbered from `n` on: for each violation, in order, its number in decimal,
": ", the chosen field with every newline turned into a space, and one space. -/
def violationListingFrom (field : Violation → String) : Nat → List Violation → String
  | _, [] => ""
  | n, v :: vs =>
    Nat.repr n ++ ": " ++ replaceNewlines (field v) ++ " " ++
      violationListingFrom field (n + 1) vs

/-- The listing of a field over the violations v_1..v_k, numbered from 1. -/
def violationListing (field : Violation → String) (violations : List Violation) : String :=
  violationListingFrom field 1 violations

/-- Example input: a 422 response whose body parses to one violation. -/
def exViolationResponse : Response :=
  { StatusCode := 422, Status := "422 Unprocessable Entity", Body := .ok "body" }

/-- Example parser result: class id "E", one violation with path "p" and message "m". -/
def exUnmarshalOne (_ : String) : Option CISLError :=
  some { ClassID := "E", Count := 1, Violations :=
    [{ ClassID := "", ErrorCode := "", Message := "m", MessageType := "",
       PropertyPath := "p", Severity := "" }] }

/-- The error of the example, as the code builds it. -/
def exViolationMessage : String :=
  "violationPropertyPaths=\x7b1: p \x7d    violationMessages=\x7b1: m \x7d"

/-- Example parser result: class id "E" and no violation. -/
def exUnmarshalNoViolation (_ : String) : Option CISLError :=
  some { ClassID := "E", Count := 0, Violations := [] }

/-- Example parser: every body is rejected. -/
def exUnmarshalFail (_ : String) : Option CISLError := none

/-! ## Maps: `ReverseMapping` -/

/-- A Go `map[string]β`: its entries, in iteration order. -/
abbrev GoMap (β : Type) := List (String × β)

/-- The entries of a map have pairwise different keys. -/
def keysNodup {β : Type} (m : GoMap β) : Prop := (m.map Prod.fst).Nodup

instance {β : Type} (m : GoMap β) : Decidable (keysNodup m) := by
  unfold keysNodup
  infer_instance

/-- The map index expression `m[x]`; `none` when the key is absent. -/
def mapGet {β : Type} : GoMap β → String → Option β
  | [], _ => none
  | (k, v) :: m, x => if x = k then some v else mapGet m x

/-- The map assignment `m[x] = b`. -/
def mapPut {β : Type} : GoMap β → String → β → GoMap β
  | [], x, b => [(x, b)]
  | (k, v) :: m, x, b => if x = k then (k, b) :: m else (k, v) :: mapPut m x b

/-- The two-level index expression `m[a][b]`, present when both keys are. -/
def mapGet2 (m : GoMap (GoMap String)) (a b : String) : Option String :=
  (mapGet m a).bind fun inner => mapGet inner b

/-- Body of the inner loop of `ReverseMapping` (utils.go 244-247) for the outer key `key`
and the inner entry `value, reverseKey`. A map made by `make` is never nil, so
`reverseMap[reverseKey] == nil` holds exactly when the key is absent. -/
def reverseInner (key : String) (reverseMap : GoMap (GoMap String))
    (entry : String × String) : GoMap (GoMap String) :=
  let value := entry.1
  let reverseKey := entry.2
  let reverseMap :=
    if (mapGet reverseMap reverseKey).isNone then mapPut reverseMap reverseKey []
    else reverseMap
  mapPut reverseMap reverseKey (mapPut ((mapGet reverseMap reverseKey).getD []) key value)

/-- Source: `ReverseMapping` (utils.go 239-252). -/
def ReverseMapping (dataMappings : GoMap (GoMap String)) : GoMap (GoMap String) :=
  dataMappings.foldl (fun reverseMap kv => kv.2.foldl (reverseInner kv.1) reverseMap) []

/-- No inner map sends two different inner keys to the same value. -/
def InnerInjective (m : GoMap (GoMap String)) : Prop :=
  ∀ kv ∈ m, ∀ e ∈ kv.2, ∀ e' ∈ kv.2, e.2 = e'.2 → e.1 = e'.1

instance (m : GoMap (GoMap String)) : Decidable (InnerInjective m) := by
  unfold InnerInjective
  infer_instance

/-- A two-level map is well formed: different keys at both levels. -/
def WellFormed (m : GoMap (GoMap String)) : Prop :=
  keysNodup m ∧ ∀ kv ∈ m, keysNodup kv.2

instance (m : GoMap (GoMap String)) : Decidable (WellFormed m) := by
  unfold WellFormed
  infer_instance

/-- The example of the specification. -/
def exMapping : GoMap (GoMap String) := [("a", [("x", "1")]), ("b", [("y", "1")])]

/-- The (outer key, inner key, value) entries of a two-level map, in iteration order. -/
def triples : GoMap (GoMap String) → List (String × String × String)
  | [] => []
  | (k, inner) :: m => inner.map (fun e => (k, e.1, e.2)) ++ triples m

/-- The loop body of `ReverseMapping` on one entry (outer key, inner key, value). -/
def reverseStep (r : GoMap (GoMap String)) (t : String × String × String) :
    GoMap (GoMap String) :=
  reverseInner t.1 r (t.2.1, t.2.2)

/-- Invariant of the loop of `ReverseMapping`: the keys of the result and of each of its
inner maps are pairwise different, and no inner map is empty. -/
def ResultInv (r : GoMap (GoMap String)) : Prop :=
  keysNodup r ∧ ∀ v inner, mapGet r v = some inner → keysNodup inner ∧ inner ≠ []

/-! ## HTTP helpers -/

/-- A `url.Values` map. -/
abbrev Values := GoMap (List String)

/-- An `*http.Request`, as far as the helpers build it: method, the URL string given to
`http.NewRequest`, the value assigned to `req.URL.RawQuery` (if any), headers and body
(`none` for a nil body reader). -/
structure Request where
  Method : String
  URL : String
  RawQuery : Option String
  Header : GoMap String
  Body : Option String
deriving DecidableEq

/-- The library functions the helpers call. `δ` is the type of the decoding destination. -/
structure HttpLib (δ : Type) where
  /-- `http.NewRequest`: the error it reports for a URL string, if any. -/
  urlError : String → Option String
  /-- `url.Values.Encode` on a non-nil map. -/
  encode : Values → String
  /-- `json.Unmarshal(body, &errorResponse)`. -/
  unmarshalCISL : String → Option CISLError
  /-- `json.Unmarshal(body, &dst)`: the error it reports, if any, and the destination
  as the call leaves it. -/
  unmarshalDst : String → δ → Option String × δ

/-- The HTTP client with its transport: the answer to a request, given the requests sent
through the client before. -/
abbrev Transport := List Request → Request → Except String Response

/-- What a helper leaves behind: the returned error (`none` for nil), the destination,
and the requests sent through the client so far, oldest first. -/
structure Outcome (δ : Type) where
  err : Option GoError
  dst : δ
  sent : List Request

/-- `http.NewRequest(method, url, body)`. -/
def newRequest {δ : Type} (lib : HttpLib δ) (method url : String) (body : Option String) :
    Except String Request :=
  match lib.urlError url with
  | some err => .error err
  | none => .ok { Method := method, URL := url, RawQuery := none, Header := [], Body := body }

/-- `req.Header.Set(key, value)`. -/
def headerSet (req : Request) (key value : String) : Request :=
  { req with Header := mapPut req.Header key value }

/-- `values.Encode()` for a possibly nil map. -/
def encodeValues {δ : Type} (lib : HttpLib δ) (values : Option Values) : String :=
  match values with
  | none => ""
  | some v => lib.encode v

/-- `client.Do(req)`: the answer of the transport, and the log of sent requests. -/
def clientDo (t : Transport) (sent : List Request) (req : Request) :
    Except String Response × List Request :=
  (t sent req, sent ++ [req])

/-- Source: `newJSONParser` (utils.go 208-220), applied to a response: the returned
error, the destination and the response after the read. -/
def newJSONParser {δ : Type} (lib : HttpLib δ) (dst : δ) (resp : Response) :
    Option GoError × δ × Response :=
  match readAll resp with
  | (.error err, resp) => (some (.other err), dst, resp)
  | (.ok body, resp) =>
    match lib.unmarshalDst body dst with
    | (some err, dst) => (some (.other err), dst, resp)
    | (none, dst) => (none, dst, resp)

/-- Source: `performRequest` (utils.go 96-120). The value returned by `parser(response)`
is not used by the source; only the parser's effect on the destination remains. -/
def performRequest {δ : Type} (lib : HttpLib δ) (t : Transport) (sent : List Request)
    (req : Request) (dst : δ) : Outcome δ :=
  match clientDo t sent req with
  | (.error err, sent) => { err := some (.other err), dst := dst, sent := sent }
  | (.ok response, sent) =>
    match checkStatusCode lib.unmarshalCISL response with
    | (some err, _) => { err := some err, dst := dst, sent := sent }
    | (none, response) =>
      let parsed := newJSONParser lib dst response
      { err := none, dst := parsed.2.1, sent := sent }

/-- Source: `PostJSONResource` (utils.go 123-138). -/
def PostJSONResource {δ : Type} (lib : HttpLib δ) (t : Transport) (sent : List Request)
    (endpoint : String) (values : Option Values) (token : String) (json : String)
    (result : δ) : Outcome δ :=
  let endpoint :=
    match values with
    | some v => endpoint ++ "?" ++ lib.encode v
    | none => endpoint
  match newRequest lib "POST" endpoint (some json) with
  | .error err => { err := some (.other err), dst := result, sent := sent }
  | .ok req =>
    let req := headerSet req "Content-Type" "application/json"
    let req := if token ≠ "" then headerSet req "Authorization" ("Bearer " ++ token) else req
    performRequest lib t sent req result

/-- Source: `PostFormData` (utils.go 141-152); the parameter `json` is not used. -/
def PostFormData {δ : Type} (lib : HttpLib δ) (t : Transport) (sent : List Request)
    (endpoint : String) (token : String) (formData : Option Values) (_json : String)
    (result : δ) : Outcome δ :=
  let formEncoded := encodeValues lib formData
  match newRequest lib "POST" endpoint (some formEncoded) with
  | .error err => { err := some (.other err), dst := result, sent := sent }
  | .ok req =>
    let req := headerSet req "Content-Type" "application/x-www-form-urlencoded"
    let req := headerSet req "Authorization" ("Bearer " ++ token)
    performRequest lib t sent req result

/-- Source: `FetchResource` (utils.go 155-174): the request goes through `client.Do`
in the function itself and, when the status check passes, again in `performRequest`. -/
def FetchResource {δ : Type} (lib : HttpLib δ) (t : Transport) (sent : List Request)
    (endpoint : String) (values : Option Values) (token : String) (result : δ) :
    Outcome δ :=
  match newRequest lib "GET" endpoint none with
  | .error err => { err := some (.other err), dst := result, sent := sent }
  | .ok req =>
    let req := headerSet req "Content-Type" "application/json"
    let req := headerSet req "Authorization" ("Bearer " ++ token)
    let req := { req with RawQuery := some (encodeValues lib values) }
    match clientDo t sent req with
    | (.error err, sent) => { err := some (.other err), dst := result, sent := sent }
    | (.ok response, sent) =>
      match checkStatusCode lib.unmarshalCISL response with
      | (some err, _) => { err := some err, dst := result, sent := sent }
      | (none, _) => performRequest lib t sent req result

/-- Source: `PutJSONResource` (utils.go 176-188). -/
def PutJSONResource {δ : Type} (lib : HttpLib δ) (t : Transport) (sent : List Request)
    (endpoint : String) (params : Option Values) (json : String) (token : String)
    (result : δ) : Outcome δ :=
  match newRequest lib "PUT" endpoint (some json) with
  | .error err => { err := some (.other err), dst := result, sent := sent }
  | .ok req =>
    let req :=
      match params with
      | some p => { req with RawQuery := some (lib.encode p) }
      | none => req
    let req := headerSet req "Content-Type" "application/json"
    let req := headerSet req "Authorization" ("Bearer " ++ token)
    performRequest lib t sent req result

/-- Source: `DeleteJSONResource` (utils.go 190-202). -/
def DeleteJSONResource {δ : Type} (lib : HttpLib δ) (t : Transport) (sent : List Request)
    (endpoint : String) (params : Option Values) (json : String) (token : String)
    (result : δ) : Outcome δ :=
  match newRequest lib "DELETE" endpoint (some json) with
  | .error err => { err := some (.other err), dst := result, sent := sent }
  | .ok req =>
    let req :=
      match params with
      | some p => { req with RawQuery := some (lib.encode p) }
      | none => req
    let req := headerSet req "Content-Type" "application/json"
    let req := headerSet req "Authorization" ("Bearer " ++ token)
    performRequest lib t sent req result

/-- Example library: every URL is accepted, and no body decodes into the destination. -/
def exLibNoDecode : HttpLib String :=
  { urlError := fun _ => none
    encode := fun _ => ""
    unmarshalCISL := fun _ => none
    unmarshalDst := fun _ dst => (some "invalid character '<' looking for beginning of value", dst) }

/-- Example transport: every request is answered with status 200 and an HTML body. -/
def exTransportOk : Transport :=
  fun _ _ => .ok { StatusCode := 200, Status := "200 OK", Body := .ok "<html></html>" }

/-! ## Typed request builder -/

/-- The path constants (utils.go 22-29). -/
def CreateClaimPath : String := "/v1/fcs/claim"

def MutatePropertyPath : String := "/v1/fcs/claim/child/property"

def MutatePersonPath : String := "/v1/fcs/claim/child/person"

def DocUploadPath : String := "/v1/document/upload"

def CreateCommentPath : String := "/v1/fcs/claim/child/comment"

/-- One invocation `client.Call(ctx, method, path, body, &resp)` of the RPC client. -/
structure RpcCall where
  Method : String
  Path : String
  Body : String
deriving DecidableEq

/-- A `pb.Claim` message: the reference identifier the builder inspects, and the rest of
its content (`α`). -/
structure Claim (α : Type) where
  IcsRefNo : String
  rest : α

/-- The `object interface{}` argument by dynamic type; a nil pointer is `none`;
`other` is any type without a case in the type switch. -/
inductive Object (α : Type) where
  | property (value : Option α)
  | person (value : Option α)
  | claim (value : Option (Claim α))
  | comment (value : Option α)
  | other

/-- The library functions the builder calls. `α` is message content, `ρ` a decoded
response message. -/
structure RpcLib (α ρ : Type) where
  /-- `json.Marshal` of the struct embedding a `*pb.Property`. -/
  marshalProperty : Option α → Except String String
  /-- `json.Marshal` of the struct embedding a `*pb.Person`. -/
  marshalPerson : Option α → Except String String
  /-- `json.Marshal` of `&pb.MutateClaimRequest` with the claim. -/
  marshalMutateClaim : Option (Claim α) → Except String String
  /-- `json.Marshal` of the struct embedding a `*pb.Claim`. -/
  marshalCreateClaim : Option (Claim α) → Except String String
  /-- `json.Marshal` of `&pb.CreateClaimCommentRequest` with the comment. -/
  marshalComment : Option α → Except String String
  /-- `rpc.Client.Call`: given the calls made before, the call and the destination,
  the error it reports, if any, and the destination as the call leaves it. -/
  call : List RpcCall → RpcCall → ρ → Option GoError × ρ
  /-- The zero value of a response message. -/
  zero : ρ
  /-- `resp.GetComment().GetCommentId()`. -/
  commentId : ρ → String

/-- The `interface{}` result of the builder. -/
inductive BuilderResult (ρ : Type) where
  | nil
  | text (s : String)
  | propertyResponse (r : ρ)
  | personResponse (r : ρ)
  | claimResponse (r : ρ)

/-- What the builder leaves behind: result, error, and the RPC calls made so far. -/
structure BuilderOutcome (ρ : Type) where
  result : BuilderResult ρ
  err : Option GoError
  calls : List RpcCall

/-- The protobuf getter `GetIcsRefNo`: the field, or "" on a nil receiver. -/
def GetIcsRefNo {α : Type} (value : Option (Claim α)) : String :=
  match value with
  | some c => c.IcsRefNo
  | none => ""

/-- Source: `FCSRequestBuilder` (utils.go 255-346). -/
def FCSRequestBuilder {α ρ : Type} (lib : RpcLib α ρ) (calls : List RpcCall)
    (object : Object α) : BuilderOutcome ρ :=
  match object with
  | .property value =>
    match lib.marshalProperty value with
    | .error err => { result := .text "", err := some (.other err), calls := calls }
    | .ok propertyReq =>
      let c : RpcCall := { Method := "PATCH", Path := MutatePropertyPath, Body := propertyReq }
      match lib.call calls c lib.zero with
      | (some err, resp) => { result := .propertyResponse resp, err := some err,
                              calls := calls ++ [c] }
      | (none, resp) => { result := .propertyResponse resp, err := none,
                          calls := calls ++ [c] }
  | .person value =>
    match lib.marshalPerson value with
    | .error err => { result := .text "", err := some (.other err), calls := calls }
    | .ok mutatePersonJsonReq =>
      let c : RpcCall :=
        { Method := "PATCH", Path := MutatePersonPath, Body := mutatePersonJsonReq }
      match lib.call calls c lib.zero with
      | (some err, resp) => { result := .personResponse resp, err := some err,
                              calls := calls ++ [c] }
      | (none, resp) => { result := .personResponse resp, err := none,
                          calls := calls ++ [c] }
  | .claim value =>
    if GetIcsRefNo value ≠ "" then
      match lib.marshalMutateClaim value with
      | .error err => { result := .nil, err := some (.other err), calls := calls }
      | .ok mutateClaimJsonReq =>
        let c : RpcCall :=
          { Method := "PATCH", Path := CreateClaimPath ++ "/" ++ GetIcsRefNo value,
            Body := mutateClaimJsonReq }
        match lib.call calls c lib.zero with
        | (some err, resp) => { result := .claimResponse resp, err := some err,
                                calls := calls ++ [c] }
        | (none, resp) => { result := .claimResponse resp, err := none,
                            calls := calls ++ [c] }
    else
      match lib.marshalCreateClaim value with
      | .error err => { result := .text "", err := some (.other err), calls := calls }
      | .ok createClaimJsonReq =>
        let c : RpcCall :=
          { Method := "POST", Path := CreateClaimPath, Body := createClaimJsonReq }
        match lib.call calls c lib.zero with
        | (some err, resp) => { result := .claimResponse resp, err := some err,
                                calls := calls ++ [c] }
        | (none, resp) => { result := .claimResponse resp, err := none,
                            calls := calls ++ [c] }
  | .comment value =>
    match lib.marshalComment value with
    | .error err => { result := .text "", err := some (.other err), calls := calls }
    | .ok createCommentJsonReq =>
      let c : RpcCall :=
        { Method := "POST", Path := CreateCommentPath, Body := createCommentJsonReq }
      match lib.call calls c lib.zero with
      | (some err, _) => { result := .text "", err := some err, calls := calls ++ [c] }
      | (none, resp) => { result := .text (lib.commentId resp), err := none,
                          calls := calls ++ [c] }
  | .other => { result := .nil, err := none, calls := calls }

/-- Example library: every message serializes to "{}" and every call succeeds. -/
def exRpcLib : RpcLib Unit Unit :=
  { marshalProperty := fun _ => .ok "\x7b\x7d"
    marshalPerson := fun _ => .ok "\x7b\x7d"
    marshalMutateClaim := fun _ => .ok "\x7b\x7d"
    marshalCreateClaim := fun _ => .ok "\x7b\x7d"
    marshalComment := fun _ => .ok "\x7b\x7d"
    call := fun _ _ r => (none, r)
    zero := ()
    commentId := fun _ => "" }

/-! ## Proofs: time -/

theorem wrapInt64_of_range (x : Int) (h1 : -(2 ^ 63) ≤ x) (h2 : x < 2 ^ 63) :
    wrapInt64 x = x := by
  unfold wrapInt64
  omega

/-- C6 (as stated, refuted): with creation time 0, current time 0 and the 64-bit value
s = 9223372037 seconds, the current time is not after t + s seconds, yet `IsExpired`
answers true, because s * time.Second wraps around in int64. -/
theorem IsExpired_overflow_counterexample :
    (-(2 ^ 63) ≤ (9223372037 : Int) ∧ (9223372037 : Int) < 2 ^ 63) ∧
      ¬ ((0 : Int) + 9223372037 * Second < 0) ∧
      IsExpired 0 0 9223372037 = true := by
  refine ⟨by norm_num, by norm_num [Second], ?_⟩
  simp only [IsExpired, wrapInt64, Second]
  norm_num

/-- C6 (amended): for every creation time t, every current time now and every number of
seconds s with -9223372036 ≤ s ≤ 9223372036 (so that s seconds fit a time.Duration),
`IsExpired t s` is true if and only if now is strictly after t + s seconds; in particular
it is false when now is exactly t + s seconds. -/
theorem IsExpired_iff_of_duration_range (now t s : Int)
    (hlo : -9223372036 ≤ s) (hhi : s ≤ 9223372036) :
    IsExpired now t s = true ↔ t + s * Second < now := by
  have h1 : wrapInt64 s = s := wrapInt64_of_range s (by omega) (by omega)
  have h2 : wrapInt64 (s * Second) = s * Second :=
    wrapInt64_of_range _ (by unfold Second; omega) (by unfold Second; omega)
  simp [IsExpired, h1, h2]

/-- Instance of the amended C6: sixty seconds after time 0, seen at 61 s and at exactly 60 s. -/
theorem IsExpired_iff_of_duration_range_witness :
    (IsExpired 61000000000 0 60 = true ↔ (0 : Int) + 60 * Second < 61000000000) ∧
      (IsExpired 60000000000 0 60 = true ↔ (0 : Int) + 60 * Second < 60000000000) :=
  ⟨IsExpired_iff_of_duration_range 61000000000 0 60 (by decide) (by decide),
   IsExpired_iff_of_duration_range 60000000000 0 60 (by decide) (by decide)⟩

/-! ## Proofs: `InsertRune` -/

theorem lor_C0 : ∀ y < 32, 0xC0 ||| y = 0xC0 + y := by decide
theorem lor_E0 : ∀ y < 16, 0xE0 ||| y = 0xE0 + y := by decide
theorem lor_F0 : ∀ y < 8, 0xF0 ||| y = 0xF0 + y := by decide
theorem lor_80 : ∀ y < 64, 0x80 ||| y = 0x80 + y := by decide
theorem and_3F (x : Nat) : x &&& 0x3F = x % 64 := Nat.and_pow_two_sub_one_eq_mod x 6
theorem and_1F (x : Nat) : x &&& 0x1F = x % 32 := Nat.and_pow_two_sub_one_eq_mod x 5
theorem and_0F (x : Nat) : x &&& 0x0F = x % 16 := Nat.and_pow_two_sub_one_eq_mod x 4
theorem and_07 (x : Nat) : x &&& 0x07 = x % 8 := Nat.and_pow_two_sub_one_eq_mod x 3
theorem shl_lor (a b k : Nat) (h : b < 2 ^ k) : (a <<< k) ||| b = a * 2 ^ k + b := by
  rw [Nat.shiftLeft_eq, Nat.mul_comm, ← Nat.mul_add_lt_is_or h]


theorem lor_mul (x c k : Nat) (h : c < 2 ^ k) : (x * 2 ^ k) ||| c = x * 2 ^ k + c := by
  rw [Nat.mul_comm, ← Nat.mul_add_lt_is_or h]

theorem lor3 (a b c : Nat) (hb : b < 64) (hc : c < 64) :
    ((a <<< 12) ||| (b <<< 6)) ||| c = a * 4096 + b * 64 + c := by
  have h1 : b <<< 6 = b * 64 := Nat.shiftLeft_eq b 6
  have h2 : (a <<< 12) ||| (b * 64) = a * 4096 + b * 64 :=
    shl_lor a (b * 64) 12 (by norm_num; omega)
  have h3 : a * 4096 + b * 64 = (a * 64 + b) * 2 ^ 6 := by norm_num; omega
  rw [h1, h2, h3, lor_mul _ c 6 (by norm_num; omega)]

theorem lor4 (a b c d : Nat) (hb : b < 64) (hc : c < 64) (hd : d < 64) :
    (((a <<< 18) ||| (b <<< 12)) ||| (c <<< 6)) ||| d =
      a * 262144 + b * 4096 + c * 64 + d := by
  have h1 : b <<< 12 = b * 4096 := Nat.shiftLeft_eq b 12
  have h2 : (a <<< 18) ||| (b * 4096) = a * 262144 + b * 4096 :=
    shl_lor a (b * 4096) 18 (by norm_num; omega)
  have h3 : c <<< 6 = c * 64 := Nat.shiftLeft_eq c 6
  have h4 : a * 262144 + b * 4096 = (a * 64 + b) * 2 ^ 12 := by norm_num; omega
  have h5 : (a * 64 + b) * 2 ^ 12 + c * 64 = ((a * 64 + b) * 64 + c) * 2 ^ 6 := by
    norm_num; omega
  rw [h1, h2, h3, h4, lor_mul _ (c * 64) 12 (by norm_num; omega), h5,
    lor_mul _ d 6 (by norm_num; omega)]

theorem decoderune_two (q m : Nat) (rest : List Nat) (hq : q < 32) (hm : m < 64)
    (hr : 0x7F < q * 64 + m) :
    decoderune ((0xC0 + q) :: (0x80 + m) :: rest) = (q * 64 + m, 2) := by
  have hc : isContinuation (0x80 + m) = true := by
    simp only [isContinuation, Bool.and_eq_true, decide_eq_true_eq]; omega
  have hv : (((0xC0 + q) &&& 0x1F) <<< 6) ||| ((0x80 + m) &&& 0x3F) = q * 64 + m := by
    rw [and_1F, and_3F, shl_lor ((0xC0 + q) % 32) ((0x80 + m) % 64) 6 (by norm_num; omega)]
    omega
  simp only [decoderune, hc, hv, if_true]
  rw [if_pos (by omega), if_pos hr]

theorem decoderune_three (a b c : Nat) (rest : List Nat) (ha : a < 16) (hb : b < 64)
    (hc : c < 64) (hr : 0x7FF < a * 4096 + b * 64 + c)
    (hs : ¬ (0xD800 ≤ a * 4096 + b * 64 + c ∧ a * 4096 + b * 64 + c ≤ 0xDFFF)) :
    decoderune ((0xE0 + a) :: (0x80 + b) :: (0x80 + c) :: rest) =
      (a * 4096 + b * 64 + c, 3) := by
  have hcb : isContinuation (0x80 + b) = true := by
    simp only [isContinuation, Bool.and_eq_true, decide_eq_true_eq]; omega
  have hcc : isContinuation (0x80 + c) = true := by
    simp only [isContinuation, Bool.and_eq_true, decide_eq_true_eq]; omega
  have hv : ((((0xE0 + a) &&& 0x0F) <<< 12) ||| (((0x80 + b) &&& 0x3F) <<< 6)) |||
      ((0x80 + c) &&& 0x3F) = a * 4096 + b * 64 + c := by
    rw [and_0F, and_3F, and_3F, lor3 _ _ _ (Nat.mod_lt _ (by norm_num))
      (Nat.mod_lt _ (by norm_num))]
    omega
  simp only [decoderune, hcb, hcc, hv, Bool.and_self, if_true]
  rw [if_neg (by omega), if_pos (by omega), if_pos ⟨hr, hs⟩]

theorem decoderune_four (a b c d : Nat) (rest : List Nat) (ha : a < 8) (hb : b < 64)
    (hc : c < 64) (hd : d < 64) (hr : 0xFFFF < a * 262144 + b * 4096 + c * 64 + d)
    (hm : a * 262144 + b * 4096 + c * 64 + d ≤ 0x10FFFF) :
    decoderune ((0xF0 + a) :: (0x80 + b) :: (0x80 + c) :: (0x80 + d) :: rest) =
      (a * 262144 + b * 4096 + c * 64 + d, 4) := by
  have hcb : isContinuation (0x80 + b) = true := by
    simp only [isContinuation, Bool.and_eq_true, decide_eq_true_eq]; omega
  have hcc : isContinuation (0x80 + c) = true := by
    simp only [isContinuation, Bool.and_eq_true, decide_eq_true_eq]; omega
  have hcd : isContinuation (0x80 + d) = true := by
    simp only [isContinuation, Bool.and_eq_true, decide_eq_true_eq]; omega
  have hv : (((((0xF0 + a) &&& 0x07) <<< 18) ||| (((0x80 + b) &&& 0x3F) <<< 12)) |||
      (((0x80 + c) &&& 0x3F) <<< 6)) ||| ((0x80 + d) &&& 0x3F) =
        a * 262144 + b * 4096 + c * 64 + d := by
    rw [and_07, and_3F, and_3F, and_3F, lor4 _ _ _ _ (Nat.mod_lt _ (by norm_num))
      (Nat.mod_lt _ (by norm_num)) (Nat.mod_lt _ (by norm_num))]
    omega
  simp only [decoderune, hcb, hcc, hcd, hv, Bool.and_self, if_true]
  rw [if_neg (by omega), if_neg (by omega), if_pos (by omega), if_pos ⟨hr, hm⟩]

theorem rangeFrom_encodeRune (n : Nat) (hv : n < 0xD800 ∨ (0xDFFF < n ∧ n < 0x110000))
    (rest : List Nat) :
    rangeFrom 0 (encodeRune (n : Int) ++ rest) = (n : Int) :: rangeFrom 0 rest := by
  have hi : ((n : Int) % 4294967296).toNat = n := by omega
  have hm : ∀ x : Nat, x % 256 &&& 0x3F = x % 64 := by
    intro x
    rw [and_3F]
    omega
  simp only [encodeRune, hi]
  by_cases h1 : n ≤ 0x7F
  · have e : n % 256 = n := by omega
    rw [if_pos h1, e]
    simp only [List.cons_append, List.nil_append]
    simp only [rangeFrom]
    rw [if_pos (by omega)]
  · rw [if_neg h1]
    by_cases h2 : n ≤ 0x7FF
    · have e0 : 0xC0 ||| ((n >>> 6) % 256) = 0xC0 + n / 64 := by
        rw [Nat.shiftRight_eq_div_pow]
        have e : n / 2 ^ 6 % 256 = n / 64 := by omega
        rw [e]
        exact lor_C0 _ (by omega)
      have e1 : 0x80 ||| (n % 256 &&& 0x3F) = 0x80 + n % 64 := by
        rw [hm]
        exact lor_80 _ (by omega)
      rw [if_pos h2, e0, e1]
      simp only [List.cons_append, List.nil_append]
      simp only [rangeFrom]
      rw [if_neg (by omega), decoderune_two _ _ _ (by omega) (by omega) (by omega)]
      simp only [rangeFrom, List.cons.injEq, and_true]
      omega
    · rw [if_neg h2]
      have h3 : ¬ (0x10FFFF < n ∨ (0xD800 ≤ n ∧ n ≤ 0xDFFF)) := by omega
      rw [if_neg h3]
      by_cases h4 : n ≤ 0xFFFF
      · have e0 : 0xE0 ||| ((n >>> 12) % 256) = 0xE0 + n / 4096 := by
          rw [Nat.shiftRight_eq_div_pow]
          have e : n / 2 ^ 12 % 256 = n / 4096 := by omega
          rw [e]
          exact lor_E0 _ (by omega)
        have e1 : 0x80 ||| ((n >>> 6) % 256 &&& 0x3F) = 0x80 + n / 64 % 64 := by
          rw [hm, Nat.shiftRight_eq_div_pow]
          exact lor_80 _ (by omega)
        have e2 : 0x80 ||| (n % 256 &&& 0x3F) = 0x80 + n % 64 := by
          rw [hm]
          exact lor_80 _ (by omega)
        rw [if_pos h4]
        simp only [encode3]
        rw [e0, e1, e2]
        simp only [List.cons_append, List.nil_append]
        simp only [rangeFrom]
        rw [if_neg (by omega),
          decoderune_three _ _ _ _ (by omega) (by omega) (by omega) (by omega) (by omega)]
        simp only [rangeFrom, List.cons.injEq, and_true]
        omega
      · have e0 : 0xF0 ||| ((n >>> 18) % 256) = 0xF0 + n / 262144 := by
          rw [Nat.shiftRight_eq_div_pow]
          have e : n / 2 ^ 18 % 256 = n / 262144 := by omega
          rw [e]
          exact lor_F0 _ (by omega)
        have e1 : 0x80 ||| ((n >>> 12) % 256 &&& 0x3F) = 0x80 + n / 4096 % 64 := by
          rw [hm, Nat.shiftRight_eq_div_pow]
          exact lor_80 _ (by omega)
        have e2 : 0x80 ||| ((n >>> 6) % 256 &&& 0x3F) = 0x80 + n / 64 % 64 := by
          rw [hm, Nat.shiftRight_eq_div_pow]
          exact lor_80 _ (by omega)
        have e3 : 0x80 ||| (n % 256 &&& 0x3F) = 0x80 + n % 64 := by
          rw [hm]
          exact lor_80 _ (by omega)
        rw [if_neg h4, e0, e1, e2, e3]
        simp only [List.cons_append, List.nil_append]
        simp only [rangeFrom]
        rw [if_neg (by omega),
          decoderune_four _ _ _ _ _ (by omega) (by omega) (by omega) (by omega) (by omega)
            (by omega)]
        simp only [rangeFrom, List.cons.injEq, and_true]
        omega

theorem char_valid (c : Char) : c.toNat < 0xD800 ∨ (0xDFFF < c.toNat ∧ c.toNat < 0x110000) :=
  c.valid

theorem rangeFrom_utf8 (cs : List Char) : rangeFrom 0 (utf8 cs) = cs.map runeOf := by
  induction cs with
  | nil => rfl
  | cons c cs ih =>
    simp only [utf8, runeOf, List.map_cons]
    rw [rangeFrom_encodeRune _ (char_valid c), ih]

theorem utf8_append (l₁ l₂ : List Char) : utf8 (l₁ ++ l₂) = utf8 l₁ ++ utf8 l₂ := by
  induction l₁ with
  | nil => rfl
  | cons c l ih =>
    show encodeRune (runeOf c) ++ utf8 (l ++ l₂) = encodeRune (runeOf c) ++ utf8 l ++ utf8 l₂
    rw [ih, List.append_assoc]

theorem foldl_insertStep_inserted (isDigit : Int → Bool) (r : Int) (l : List Char)
    (acc : List Nat) :
    (l.map runeOf).foldl (insertStep isDigit r) { searchString := acc, inserted := true } =
      { searchString := acc ++ utf8 l, inserted := true } := by
  induction l generalizing acc with
  | nil => simp [utf8]
  | cons c l ih => simp [List.foldl_cons, insertStep, ih, utf8]

theorem foldl_insertStep_no_digit (isDigit : Int → Bool) (r : Int) (l : List Char)
    (acc : List Nat) (h : ∀ c ∈ l, isDigit (runeOf c) = false) :
    (l.map runeOf).foldl (insertStep isDigit r) { searchString := acc, inserted := false } =
      { searchString := acc ++ utf8 l, inserted := false } := by
  induction l generalizing acc with
  | nil => simp [utf8]
  | cons c l ih =>
    have hc : isDigit (runeOf c) = false := h c (List.mem_cons_self _ _)
    have hl : ∀ c ∈ l, isDigit (runeOf c) = false :=
      fun x hx => h x (List.mem_cons_of_mem _ hx)
    simp [List.foldl_cons, insertStep, hc, ih _ hl, utf8]

theorem foldl_insertStep_first_digit (isDigit : Int → Bool) (r d : Char)
    (pre post : List Char) (acc : List Nat)
    (hpre : ∀ c ∈ pre, isDigit (runeOf c) = false) (hd : isDigit (runeOf d) = true) :
    ((pre ++ d :: post).map runeOf).foldl (insertStep isDigit (runeOf r))
        { searchString := acc, inserted := false } =
      { searchString := acc ++ utf8 (pre ++ r :: d :: post), inserted := true } := by
  rw [List.map_append, List.foldl_append,
    foldl_insertStep_no_digit isDigit (runeOf r) pre acc hpre]
  simp [List.foldl_cons, insertStep, hd, foldl_insertStep_inserted, utf8, utf8_append]

/-- C8 (amended): for every well-formed UTF-8 input (the encoding of code points cs) and
every rune r that is a Unicode scalar value: if the input has no decimal digit,
`InsertRune` returns it unchanged; otherwise, with cs = pre ++ [d] ++ post at its first
digit d, the result is the encoding of pre ++ [r, d] ++ post. -/
theorem InsertRune_wellformed_spec (isDigit : Int → Bool) (cs : List Char) (r : Char) :
    ((∀ c ∈ cs, isDigit (runeOf c) = false) →
        InsertRune isDigit (utf8 cs) (runeOf r) = utf8 cs) ∧
      (∀ (pre post : List Char) (d : Char), cs = pre ++ d :: post →
        (∀ c ∈ pre, isDigit (runeOf c) = false) → isDigit (runeOf d) = true →
        InsertRune isDigit (utf8 cs) (runeOf r) = utf8 (pre ++ r :: d :: post)) := by
  constructor
  · intro h
    unfold InsertRune
    rw [rangeFrom_utf8, foldl_insertStep_no_digit isDigit (runeOf r) cs [] h]
    simp
  · intro pre post d hs hpre hd
    unfold InsertRune
    rw [rangeFrom_utf8, hs, foldl_insertStep_first_digit isDigit r d pre post [] hpre hd]
    simp

/-- Instance of the amended C8: the two examples of the specification. -/
theorem InsertRune_wellformed_spec_witness :
    InsertRune asciiDigit (utf8 "ABCDEF".toList) (runeOf '-') = utf8 "ABCDEF".toList ∧
      InsertRune asciiDigit (utf8 "ABC123".toList) (runeOf '-') = utf8 "ABC-123".toList :=
  ⟨(InsertRune_wellformed_spec asciiDigit "ABCDEF".toList '-').1 (by decide),
   (InsertRune_wellformed_spec asciiDigit "ABC123".toList '-').2 ['A', 'B', 'C'] ['2', '3'] '1'
      (by decide) (by decide) (by decide)⟩

/-- C8 (as stated, refuted): the string with the bytes FF 61 62 has no decimal digit, yet
`InsertRune` with the rune 2D returns EF BF BD 61 62, not the input: `range` yields U+FFFD
for the byte FF. And for the input "a1" and the surrogate D800 the rune inserted before
the digit is U+FFFD, not D800. -/
theorem InsertRune_ill_formed_counterexample :
    (∀ c ∈ rangeFrom 0 [0xFF, 0x61, 0x62], asciiDigit c = false) ∧
      InsertRune asciiDigit [0xFF, 0x61, 0x62] 0x2D = [0xEF, 0xBF, 0xBD, 0x61, 0x62] ∧
      InsertRune asciiDigit [0xFF, 0x61, 0x62] 0x2D ≠ [0xFF, 0x61, 0x62] ∧
      InsertRune asciiDigit [0x61, 0x31] 0xD800 = [0x61, 0xEF, 0xBF, 0xBD, 0x31] ∧
      rangeFrom 0 (InsertRune asciiDigit [0x61, 0x31] 0xD800) = [0x61, 0xFFFD, 0x31] := by
  decide


/-! ## Proofs: `ReverseString` -/

theorem swapLoop_stop (runes : List Char) (i j : Int) (h : ¬ i < j) :
    swapLoop runes i j = runes := by
  rw [swapLoop, if_neg h]

theorem swapLoop_step (runes : List Char) (i j : Nat) (h : i < j) :
    swapLoop runes i j =
      swapLoop ((runes.set i (runes.getD j default)).set j (runes.getD i default))
        ((i + 1 : Nat) : Int) ((j - 1 : Nat) : Int) := by
  have hij : (i : Int) < j := by omega
  rw [swapLoop, if_pos hij]
  have e1 : ((i : Int) + 1) = ((i + 1 : Nat) : Int) := by omega
  have e2 : ((j : Int) - 1) = ((j - 1 : Nat) : Int) := by omega
  simp only [Int.toNat_ofNat, e1, e2]

theorem swapLoop_getElem? (n : Nat) : ∀ (runes : List Char) (i j : Nat),
    j - i ≤ n → j < runes.length →
    ∀ k : Nat, (swapLoop runes i j)[k]? =
      if i ≤ k ∧ k ≤ j then runes[i + j - k]? else runes[k]? := by
  induction n with
  | zero =>
    intro runes i j hn hj k
    rw [swapLoop_stop runes i j (by omega)]
    split
    · next h => have : i + j - k = k := by omega
                rw [this]
    · rfl
  | succ n ih =>
    intro runes i j hn hj k
    by_cases hij : i < j
    · rw [swapLoop_step runes i j hij]
      have hi : i < runes.length := by omega
      rw [ih _ (i + 1) (j - 1) (by omega) (by simp; omega) k]
      have gi : runes[i]? = some runes[i] := List.getElem?_eq_getElem hi
      have gj : runes[j]? = some runes[j] := List.getElem?_eq_getElem hj
      simp only [List.getElem?_set, List.length_set, List.getD_eq_getElem?_getD, gi, gj,
        Option.getD_some]
      by_cases h1 : i + 1 ≤ k ∧ k ≤ j - 1
      · have e : i + 1 + (j - 1) - k = i + j - k := by omega
        have h2 : i ≤ k ∧ k ≤ j := by omega
        have h3 : ¬ j = i + j - k := by omega
        have h4 : ¬ i = i + j - k := by omega
        simp only [if_pos h1, if_pos h2, e, if_neg h3, if_neg h4]
      · rw [if_neg h1]
        by_cases hkj : j = k
        · subst hkj
          have h2 : i ≤ j ∧ j ≤ j := by omega
          have e : i + j - j = i := by omega
          simp only [if_true, if_pos hj, if_pos h2, e, gi]
        · by_cases hki : i = k
          · subst hki
            have h2 : i ≤ i ∧ i ≤ j := by omega
            have e : i + j - i = j := by omega
            simp only [if_neg hkj, if_true, if_pos hi, if_pos h2, e, gj]
          · have h2 : ¬ (i ≤ k ∧ k ≤ j) := by omega
            simp only [if_neg hkj, if_neg hki, if_neg h2]
    · rw [swapLoop_stop runes i j (by omega)]
      split
      · next h => have : i + j - k = k := by omega
                  rw [this]
      · rfl

theorem swapLoop_eq_reverse (runes : List Char) :
    swapLoop runes 0 ((runes.length : Int) - 1) = runes.reverse := by
  cases hlen : runes.length with
  | zero =>
    rw [swapLoop_stop _ _ _ (by simp)]
    simp [List.length_eq_zero.mp hlen]
  | succ m =>
    have e : (((m + 1 : Nat) : Int) - 1) = ((m : Nat) : Int) := by omega
    rw [e]
    apply List.ext_getElem?
    intro k
    have h0 : swapLoop runes 0 (m : Int) = swapLoop runes ((0 : Nat) : Int) (m : Int) := rfl
    rw [h0, swapLoop_getElem? m runes 0 m (by omega) (by omega) k]
    by_cases hk : k ≤ m
    · rw [if_pos ⟨Nat.zero_le k, hk⟩, List.getElem?_reverse (by omega), hlen]
      congr 1
      omega
    · rw [if_neg (by omega), List.getElem?_eq_none (by omega),
        List.getElem?_eq_none (by simp; omega)]

/-- C9: `ReverseString x` is the string whose code points are those of x in reverse
order (the two-index swap loop computes the list reversal), and
ReverseString "claim123" = "321mialc". -/
theorem ReverseString_spec :
    (∀ x : String, ReverseString x = String.mk x.toList.reverse) ∧
      ReverseString "claim123" = "321mialc" := by
  have h : ∀ x : String, ReverseString x = String.mk x.toList.reverse := by
    intro x
    simp only [ReverseString, swapLoop_eq_reverse]
  exact ⟨h, by rw [h]; decide⟩

/-! ## Proofs: `checkStatusCode` -/

theorem digitChar_ne_newline : ∀ n : Nat, Nat.digitChar n ≠ '\n'
  | 0 | 1 | 2 | 3 | 4 | 5 | 6 | 7 | 8 | 9 | 10 | 11 | 12 | 13 | 14 | 15 => by decide
  | n + 16 => by simp [Nat.digitChar]

theorem toDigitsCore_no_newline (fuel : Nat) : ∀ (n : Nat) (ds : List Char),
    (∀ c ∈ ds, c ≠ '\n') → ∀ c ∈ Nat.toDigitsCore 10 fuel n ds, c ≠ '\n' := by
  induction fuel with
  | zero => intro n ds h; simpa [Nat.toDigitsCore] using h
  | succ f ih =>
    intro n ds h
    have hds : ∀ c ∈ Nat.digitChar (n % 10) :: ds, c ≠ '\n' := by
      intro c hc
      rcases List.mem_cons.mp hc with rfl | hc
      · exact digitChar_ne_newline _
      · exact h c hc
    simp only [Nat.toDigitsCore]
    split_ifs
    · exact hds
    · exact ih _ _ hds

theorem replaceNewlines_append (a b : String) :
    replaceNewlines (a ++ b) = replaceNewlines a ++ replaceNewlines b := by
  apply String.ext
  simp [replaceNewlines]

theorem replaceNewlines_of_no_newline (s : String) (h : ∀ c ∈ s.toList, c ≠ '\n') :
    replaceNewlines s = s := by
  apply String.ext
  simp only [replaceNewlines, String.toList]
  conv_rhs => rw [← List.map_id s.data]
  apply List.map_congr_left
  intro c hc
  simp [h c hc]

theorem replaceNewlines_repr (n : Nat) : replaceNewlines (Nat.repr n) = Nat.repr n := by
  apply replaceNewlines_of_no_newline
  intro c hc
  exact toDigitsCore_no_newline _ _ _ (by simp) c hc

theorem replaceNewlines_no_newline (s : String) : '\n' ∉ (replaceNewlines s).toList := by
  simp only [replaceNewlines, String.toList, List.mem_map, not_exists, not_and]
  intro c _
  split_ifs with h
  · decide
  · exact h

theorem foldl_violationStep (vs : List Violation) : ∀ (n : Nat) (a b : String),
    replaceNewlines ((vs.enumFrom n).foldl violationStep (a, b)).1 =
        replaceNewlines a ++ violationListingFrom Violation.Message (n + 1) vs ∧
      replaceNewlines ((vs.enumFrom n).foldl violationStep (a, b)).2 =
        replaceNewlines b ++ violationListingFrom Violation.PropertyPath (n + 1) vs := by
  induction vs with
  | nil => intro n a b; simp [violationListingFrom]
  | cons v vs ih =>
    intro n a b
    have hnl : replaceNewlines "\n" = " " := by decide
    have hcs : replaceNewlines ": " = ": " := by decide
    simp only [List.enumFrom_cons, List.foldl_cons, violationStep, ih, violationListingFrom,
      replaceNewlines_append, replaceNewlines_repr, hnl, hcs, String.append_assoc, and_self]

theorem violationsMessage_eq (vs : List Violation) :
    violationsMessage vs =
      "violationPropertyPaths=\x7b" ++ violationListing Violation.PropertyPath vs ++
        "\x7d    violationMessages=\x7b" ++ violationListing Violation.Message vs ++ "\x7d" := by
  have h := foldl_violationStep vs 0 "" ""
  have e0 : replaceNewlines "" = "" := by decide
  have e1 : replaceNewlines "violationPropertyPaths=\x7b" = "violationPropertyPaths=\x7b" := by
    decide
  have e2 : replaceNewlines "\x7d\n\n\n\nviolationMessages=\x7b" =
      "\x7d    violationMessages=\x7b" := by decide
  have e3 : replaceNewlines "\x7d" = "\x7d" := by decide
  simp only [violationsMessage, List.enum, replaceNewlines_append, h.1, h.2, e0, e1, e2, e3,
    violationListing, String.empty_append]

/-- C1: for a response whose body can be read, `checkStatusCode` returns no error if and
only if the status is 200, or the status is not 200 and the body parses as a structured
error with non-empty ClassID and zero violations; in every other case the error is a
`StatusCodeError`; and a `StatusCodeError` is never produced for a 200 response. -/
theorem checkStatusCode_nil_iff (unmarshal : String → Option CISLError) (resp : Response) :
    (∀ body, resp.Body = .ok body →
      (((checkStatusCode unmarshal resp).1 = none ↔
          (resp.StatusCode = 200 ∨
            (resp.StatusCode ≠ 200 ∧
              ∃ e, unmarshal body = some e ∧ e.ClassID ≠ "" ∧ e.Violations = []))) ∧
        ((checkStatusCode unmarshal resp).1 ≠ none →
          ∃ sce, (checkStatusCode unmarshal resp).1 = some (.statusCode sce)))) ∧
      (∀ sce, (checkStatusCode unmarshal resp).1 = some (.statusCode sce) →
        resp.StatusCode ≠ 200) := by
  constructor
  · intro body hbody
    by_cases hs : resp.StatusCode = 200
    · simp [checkStatusCode, StatusOK, hs]
    · cases hu : unmarshal body with
      | none => simp [checkStatusCode, StatusOK, hs, readAll, hbody, hu]
      | some e =>
        by_cases hc : e.ClassID = ""
        · simp [checkStatusCode, StatusOK, hs, readAll, hbody, hu, hc]
        · cases hv : e.Violations with
          | nil => simp [checkStatusCode, StatusOK, hs, readAll, hbody, hu, hc, hv]
          | cons v vs => simp [checkStatusCode, StatusOK, hs, readAll, hbody, hu, hc, hv]
  · intro sce h hs
    simp [checkStatusCode, StatusOK, hs] at h

/-- C2: for a status other than 200 and a readable body that fails to parse, or parses
with an empty ClassID, `checkStatusCode` returns a `StatusCodeError` whose Code is the
status code and whose ResponseMessage, and hence Error(), is the raw body. -/
theorem checkStatusCode_raw_body (unmarshal : String → Option CISLError) (resp : Response)
    (body : String) (hbody : resp.Body = .ok body) (hs : resp.StatusCode ≠ 200)
    (hp : unmarshal body = none ∨ ∃ e, unmarshal body = some e ∧ e.ClassID = "") :
    ∃ sce, (checkStatusCode unmarshal resp).1 = some (.statusCode sce) ∧
      sce.Code = resp.StatusCode ∧ sce.HTTPStatusCode = resp.StatusCode ∧
      sce.ResponseMessage = body ∧ sce.Error = body := by
  refine ⟨⟨resp.StatusCode, resp.Status, body, CISLError.zero⟩, ?_, rfl, rfl, rfl, rfl⟩
  rcases hp with hu | ⟨e, hu, hc⟩
  · simp [checkStatusCode, StatusOK, hs, readAll, hbody, hu]
  · simp [checkStatusCode, StatusOK, hs, readAll, hbody, hu, hc]

/-- C3 (amended): for a status other than 200 and a body that parses with non-empty
ClassID and violations v_1..v_k, k > 0, the error is a `StatusCodeError` whose message
is "violationPropertyPaths=" followed by the braced listing P, four spaces,
"violationMessages=" and the braced listing M, where P (resp. M) is, for n = 1..k in
order, "n: ", the property path (resp. message) of v_n with newlines turned into spaces,
and one space; the message contains no newline. -/
theorem checkStatusCode_violations (unmarshal : String → Option CISLError) (resp : Response)
    (body : String) (e : CISLError) (hbody : resp.Body = .ok body)
    (hs : resp.StatusCode ≠ 200) (hu : unmarshal body = some e) (hc : e.ClassID ≠ "")
    (hv : e.Violations ≠ []) :
    ∃ sce, (checkStatusCode unmarshal resp).1 = some (.statusCode sce) ∧
      sce.Code = resp.StatusCode ∧
      sce.ResponseMessage =
        "violationPropertyPaths=\x7b" ++ violationListing Violation.PropertyPath e.Violations ++
          "\x7d    violationMessages=\x7b" ++ violationListing Violation.Message e.Violations ++
          "\x7d" ∧
      '\n' ∉ sce.ResponseMessage.toList := by
  have hlen : 0 < e.Violations.length := List.length_pos.mpr hv
  refine ⟨_, by simp [checkStatusCode, StatusOK, hs, readAll, hbody, hu, hc, hlen]; rfl,
    rfl, violationsMessage_eq _, ?_⟩
  exact replaceNewlines_no_newline _

/-- C3 (as stated, refuted): for a 422 response with one violation (path "p", message
"m") the message is "violationPropertyPaths=(1: p )    violationMessages=(1: m )" with
braces for the parentheses: four spaces separate the two parts, so it is not of the form
"violationPropertyPaths=(P) violationMessages=(M)" for any P and M. -/
theorem checkStatusCode_form_counterexample :
    (checkStatusCode exUnmarshalOne exViolationResponse).1 =
        some (.statusCode ⟨422, "422 Unprocessable Entity", exViolationMessage,
          CISLError.zero⟩) ∧
      ¬ ∃ P M : String, exViolationMessage =
          "violationPropertyPaths=\x7b" ++ P ++ "\x7d violationMessages=\x7b" ++ M ++ "\x7d" := by
  refine ⟨by decide, ?_⟩
  rintro ⟨P, M, h⟩
  have hl := congrArg String.toList h
  have hin : "\x7d violationMessages=\x7b".toList <:+: exViolationMessage.toList := by
    rw [hl]
    refine ⟨"violationPropertyPaths=\x7b".toList ++ P.toList, M.toList ++ "\x7d".toList, ?_⟩
    simp [String.toList]
  exact absurd hin (by decide)

/-- Instance of C1: a 422 response whose body parses with a class id and no violation. -/
theorem checkStatusCode_nil_iff_witness :
    ((checkStatusCode exUnmarshalNoViolation exViolationResponse).1 = none ↔
        (exViolationResponse.StatusCode = 200 ∨
          (exViolationResponse.StatusCode ≠ 200 ∧
            ∃ e, exUnmarshalNoViolation "body" = some e ∧ e.ClassID ≠ "" ∧
              e.Violations = []))) ∧
      ((checkStatusCode exUnmarshalNoViolation exViolationResponse).1 ≠ none →
        ∃ sce, (checkStatusCode exUnmarshalNoViolation exViolationResponse).1 =
          some (.statusCode sce)) :=
  (checkStatusCode_nil_iff exUnmarshalNoViolation exViolationResponse).1 "body" rfl

/-- Instance of C2: a 422 response whose body does not parse. -/
theorem checkStatusCode_raw_body_witness :
    ∃ sce, (checkStatusCode exUnmarshalFail exViolationResponse).1 = some (.statusCode sce) ∧
      sce.Code = exViolationResponse.StatusCode ∧
      sce.HTTPStatusCode = exViolationResponse.StatusCode ∧
      sce.ResponseMessage = "body" ∧ sce.Error = "body" :=
  checkStatusCode_raw_body exUnmarshalFail exViolationResponse "body" rfl (by decide)
    (Or.inl rfl)

/-- Instance of the amended C3: a 422 response with one violation. -/
theorem checkStatusCode_violations_witness :
    ∃ sce, (checkStatusCode exUnmarshalOne exViolationResponse).1 = some (.statusCode sce) ∧
      sce.Code = exViolationResponse.StatusCode ∧
      sce.ResponseMessage =
        "violationPropertyPaths=\x7b" ++
          violationListing Violation.PropertyPath
            [⟨"", "", "m", "", "p", ""⟩] ++
          "\x7d    violationMessages=\x7b" ++
          violationListing Violation.Message [⟨"", "", "m", "", "p", ""⟩] ++
          "\x7d" ∧
      '\n' ∉ sce.ResponseMessage.toList :=
  checkStatusCode_violations exUnmarshalOne exViolationResponse "body"
    ⟨"E", 1, [⟨"", "", "m", "", "p", ""⟩]⟩ rfl (by decide) rfl (by decide) (by decide)

/-! ## Proofs: `ReverseMapping` -/

theorem mapGet_mapPut {β : Type} (m : GoMap β) (x y : String) (b : β) :
    mapGet (mapPut m x b) y = if y = x then some b else mapGet m y := by
  induction m with
  | nil => simp [mapPut, mapGet]
  | cons kv m ih =>
    obtain ⟨k, v⟩ := kv
    by_cases hx : x = k
    · subst hx
      by_cases hy : y = x <;> simp [mapPut, mapGet, hy]
    · by_cases hy : y = k
      · subst hy
        simp [mapPut, mapGet, hx, Ne.symm hx]
      · simp [mapPut, mapGet, hx, hy, ih]

theorem keys_mapPut {β : Type} (m : GoMap β) (x : String) (b : β) :
    (mapPut m x b).map Prod.fst =
      if x ∈ m.map Prod.fst then m.map Prod.fst else m.map Prod.fst ++ [x] := by
  induction m with
  | nil => simp [mapPut]
  | cons kv m ih =>
    obtain ⟨k, v⟩ := kv
    by_cases hx : x = k
    · simp [mapPut, hx]
    · have hmem : (x ∈ List.map Prod.fst ((k, v) :: m)) ↔ (x ∈ List.map Prod.fst m) := by
        simp [hx]
      by_cases hin : x ∈ List.map Prod.fst m
      · rw [if_pos (hmem.mpr hin)]
        rw [if_pos hin] at ih
        simp only [mapPut, if_neg hx, List.map_cons, ih]
      · rw [if_neg (fun h => hin (hmem.mp h))]
        rw [if_neg hin] at ih
        simp only [mapPut, if_neg hx, List.map_cons, ih, List.cons_append]

theorem keysNodup_mapPut {β : Type} (m : GoMap β) (x : String) (b : β) (h : keysNodup m) :
    keysNodup (mapPut m x b) := by
  unfold keysNodup at *
  rw [keys_mapPut]
  split_ifs with hx
  · exact h
  · exact List.Nodup.append h (List.nodup_singleton x) (by simpa using hx)

theorem mapGet_eq_some_iff {β : Type} (m : GoMap β) (h : keysNodup m) (k : String) (b : β) :
    mapGet m k = some b ↔ (k, b) ∈ m := by
  induction m with
  | nil => simp [mapGet]
  | cons kv m ih =>
    obtain ⟨k', v⟩ := kv
    have hn : k' ∉ m.map Prod.fst ∧ keysNodup m := by
      simpa [keysNodup] using h
    by_cases hk : k = k'
    · subst hk
      simp only [mapGet, if_true, Option.some.injEq, List.mem_cons, Prod.mk.injEq, true_and]
      constructor
      · intro e; exact Or.inl e.symm
      · rintro (e | hm)
        · exact e.symm
        · exact absurd (List.mem_map_of_mem Prod.fst hm) hn.1
    · simp [mapGet, hk, ih hn.2]

theorem mapGet2_reverseStep (r : GoMap (GoMap String)) (t : String × String × String)
    (v k : String) :
    mapGet2 (reverseStep r t) v k =
      if v = t.2.2 ∧ k = t.1 then some t.2.1 else mapGet2 r v k := by
  obtain ⟨key, i, val⟩ := t
  simp only [reverseStep, reverseInner, mapGet2]
  cases hg : mapGet r val with
  | none =>
    simp only [Option.isNone_none, if_true, mapGet_mapPut, Option.getD_some]
    by_cases hv : v = val
    · subst hv
      by_cases hk : k = key <;> simp [mapPut, mapGet, hk, hg]
    · simp [hv]
  | some inner =>
    simp only [Option.isNone_some, Bool.false_eq_true, if_false, hg, Option.getD_some,
      mapGet_mapPut]
    by_cases hv : v = val
    · subst hv
      by_cases hk : k = key <;> simp [mapGet_mapPut, hk, hg]
    · simp [hv]

theorem foldl_reverseInner_eq (k : String) (inner : GoMap String) (r : GoMap (GoMap String)) :
    inner.foldl (reverseInner k) r =
      (inner.map (fun e => (k, e.1, e.2))).foldl reverseStep r := by
  induction inner generalizing r with
  | nil => rfl
  | cons e inner ih => simp only [List.foldl_cons, List.map_cons, ih, reverseStep]

theorem foldl_outer_eq (m : GoMap (GoMap String)) (r : GoMap (GoMap String)) :
    m.foldl (fun reverseMap kv => kv.2.foldl (reverseInner kv.1) reverseMap) r =
      (triples m).foldl reverseStep r := by
  induction m generalizing r with
  | nil => rfl
  | cons kv m ih =>
    obtain ⟨k, inner⟩ := kv
    simp only [List.foldl_cons, triples, List.foldl_append]
    rw [ih, foldl_reverseInner_eq]

theorem ReverseMapping_eq_foldl (m : GoMap (GoMap String)) :
    ReverseMapping m = (triples m).foldl reverseStep [] :=
  foldl_outer_eq m []

theorem mem_triples (m : GoMap (GoMap String)) (k i v : String) :
    (k, i, v) ∈ triples m ↔ ∃ inner, (k, inner) ∈ m ∧ (i, v) ∈ inner := by
  induction m with
  | nil => simp [triples]
  | cons kv m ih =>
    obtain ⟨k', inner'⟩ := kv
    simp only [triples, List.mem_append, List.mem_map, Prod.mk.injEq, ih, List.mem_cons]
    constructor
    · rintro (⟨e, he, rfl, rfl, rfl⟩ | ⟨inner, hm, hi⟩)
      · exact ⟨inner', Or.inl ⟨rfl, rfl⟩, he⟩
      · exact ⟨inner, Or.inr hm, hi⟩
    · rintro ⟨inner, (⟨rfl, rfl⟩ | hm), hi⟩
      · exact Or.inl ⟨(i, v), hi, rfl, rfl, rfl⟩
      · exact Or.inr ⟨inner, hm, hi⟩

theorem mapGet2_eq_some_iff (m : GoMap (GoMap String)) (h : WellFormed m) (k i v : String) :
    mapGet2 m k i = some v ↔ (k, i, v) ∈ triples m := by
  rw [mem_triples]
  unfold mapGet2
  constructor
  · intro hg
    cases hk : mapGet m k with
    | none => simp [hk] at hg
    | some inner =>
      have hmem : (k, inner) ∈ m := (mapGet_eq_some_iff m h.1 k inner).mp hk
      rw [hk] at hg
      exact ⟨inner, hmem, (mapGet_eq_some_iff inner (h.2 _ hmem) i v).mp hg⟩
  · rintro ⟨inner, hmem, hi⟩
    rw [(mapGet_eq_some_iff m h.1 k inner).mpr hmem]
    exact (mapGet_eq_some_iff inner (h.2 _ hmem) i v).mpr hi

theorem mapGet2_foldl_reverseStep (T : List (String × String × String))
    (huniq : ∀ k i i' v, (k, i, v) ∈ T → (k, i', v) ∈ T → i = i') :
    ∀ (r : GoMap (GoMap String)) (v k i : String),
      mapGet2 (T.foldl reverseStep r) v k = some i ↔
        ((k, i, v) ∈ T ∨ ((∀ i', (k, i', v) ∉ T) ∧ mapGet2 r v k = some i)) := by
  induction T with
  | nil => intro r v k i; simp
  | cons t T ih =>
    intro r v k i
    obtain ⟨tk, ti, tv⟩ := t
    have huniq' : ∀ k i i' v, (k, i, v) ∈ T → (k, i', v) ∈ T → i = i' :=
      fun k i i' v h1 h2 => huniq k i i' v (List.mem_cons_of_mem _ h1) (List.mem_cons_of_mem _ h2)
    rw [List.foldl_cons, ih huniq', mapGet2_reverseStep]
    by_cases hm : v = tv ∧ k = tk
    · obtain ⟨rfl, rfl⟩ := hm
      simp only [and_self, if_true, Option.some.injEq, List.mem_cons, Prod.mk.injEq, true_and,
        and_true]
      constructor
      · rintro (h | ⟨_, rfl⟩)
        · exact Or.inl (Or.inr h)
        · exact Or.inl (Or.inl rfl)
      · rintro (h | ⟨hno, _⟩)
        · rcases h with rfl | h
          · by_cases hex : ∃ i', (k, i', v) ∈ T
            · obtain ⟨i', hi'⟩ := hex
              have : i = i' := huniq k i i' v (List.mem_cons_self _ _) (List.mem_cons_of_mem _ hi')
              exact Or.inl (this ▸ hi')
            · exact Or.inr ⟨fun i' hi' => hex ⟨i', hi'⟩, rfl⟩
          · exact Or.inl h
        · exact absurd (Or.inl rfl) (hno ti)
    · rw [if_neg hm]
      have hne : ∀ i', (k, i', v) ≠ (tk, ti, tv) := by
        intro i' he
        simp only [Prod.mk.injEq] at he
        exact hm ⟨he.2.2, he.1⟩
      simp only [List.mem_cons, hne, false_or]

theorem triples_unique (m : GoMap (GoMap String)) (hwf : WellFormed m)
    (hinj : InnerInjective m) (k i i' v : String)
    (h1 : (k, i, v) ∈ triples m) (h2 : (k, i', v) ∈ triples m) : i = i' := by
  obtain ⟨inner, hm, hi⟩ := (mem_triples m k i v).mp h1
  obtain ⟨inner', hm', hi'⟩ := (mem_triples m k i' v).mp h2
  have e1 := (mapGet_eq_some_iff m hwf.1 k inner).mpr hm
  have e2 := (mapGet_eq_some_iff m hwf.1 k inner').mpr hm'
  have e : inner = inner' := by
    rw [e1] at e2
    exact Option.some.inj e2
  subst e
  exact hinj (k, inner) hm (i, v) hi (i', v) hi' rfl

theorem mapPut_ne_nil {β : Type} (m : GoMap β) (x : String) (b : β) : mapPut m x b ≠ [] := by
  cases m with
  | nil => simp [mapPut]
  | cons kv m =>
    obtain ⟨k, v⟩ := kv
    by_cases hx : x = k <;> simp [mapPut, hx]

theorem ResultInv_reverseStep (r : GoMap (GoMap String)) (t : String × String × String)
    (h : ResultInv r) : ResultInv (reverseStep r t) := by
  obtain ⟨key, i, val⟩ := t
  obtain ⟨hk, hin⟩ := h
  simp only [reverseStep, reverseInner]
  refine ⟨keysNodup_mapPut _ _ _ ?_, ?_⟩
  · split_ifs
    · exact keysNodup_mapPut _ _ _ hk
    · exact hk
  · intro v inner hg
    rw [mapGet_mapPut] at hg
    by_cases hv : v = val
    · rw [if_pos hv] at hg
      have e := Option.some.inj hg
      subst e
      refine ⟨keysNodup_mapPut _ _ _ ?_, mapPut_ne_nil _ _ _⟩
      cases hr : mapGet r val with
      | none => simp [hr, mapGet_mapPut, keysNodup]
      | some inner0 => simpa [hr] using (hin val inner0 hr).1
    · rw [if_neg hv] at hg
      cases hr : mapGet r val with
      | none =>
        simp only [hr, Option.isNone_none, if_true, mapGet_mapPut, if_neg hv] at hg
        exact hin v inner hg
      | some inner0 =>
        simp only [hr, Option.isNone_some, Bool.false_eq_true, if_false] at hg
        exact hin v inner hg

theorem ResultInv_foldl (T : List (String × String × String)) (r : GoMap (GoMap String))
    (h : ResultInv r) : ResultInv (T.foldl reverseStep r) := by
  induction T generalizing r with
  | nil => exact h
  | cons t T ih => exact ih _ (ResultInv_reverseStep r t h)

theorem ResultInv_nil : ResultInv [] := by
  refine ⟨by simp [keysNodup], ?_⟩
  intro v inner hg
  simp [mapGet] at hg

theorem isSome_mapGet_iff (r : GoMap (GoMap String)) (h : ResultInv r) (v : String) :
    (mapGet r v).isSome = true ↔ ∃ k i, mapGet2 r v k = some i := by
  unfold mapGet2
  cases hg : mapGet r v with
  | none => simp
  | some inner =>
    have hne := (h.2 v inner hg).2
    cases inner with
    | nil => exact absurd rfl hne
    | cons e rest =>
      obtain ⟨k, i⟩ := e
      simp only [Option.isSome_some, Option.some_bind, true_iff]
      exact ⟨k, i, by simp [mapGet]⟩

/-- C7: for a two-level map m (keys pairwise different at both levels) in which no inner
map sends two different inner keys to the same value, r = ReverseMapping(m) satisfies, for
all v, k, i: r[v][k] is present and equals i if and only if m[k][i] is present and equals
v; r has the outer key v exactly when v occurs as a value in m; and r is again a map. -/
theorem ReverseMapping_spec (m : GoMap (GoMap String)) (hwf : WellFormed m)
    (hinj : InnerInjective m) :
    (∀ v k i, mapGet2 (ReverseMapping m) v k = some i ↔ mapGet2 m k i = some v) ∧
      (∀ v, (mapGet (ReverseMapping m) v).isSome = true ↔ ∃ k i, mapGet2 m k i = some v) ∧
      WellFormed (ReverseMapping m) := by
  have hinv : ResultInv (ReverseMapping m) := by
    rw [ReverseMapping_eq_foldl]
    exact ResultInv_foldl _ _ ResultInv_nil
  have hsem : ∀ v k i, mapGet2 (ReverseMapping m) v k = some i ↔ mapGet2 m k i = some v := by
    intro v k i
    rw [ReverseMapping_eq_foldl,
      mapGet2_foldl_reverseStep (triples m) (triples_unique m hwf hinj) [] v k i,
      mapGet2_eq_some_iff m hwf]
    simp [mapGet2, mapGet]
  refine ⟨hsem, ?_, hinv.1, ?_⟩
  · intro v
    rw [isSome_mapGet_iff _ hinv]
    constructor
    · rintro ⟨k, i, h⟩
      exact ⟨k, i, (hsem v k i).mp h⟩
    · rintro ⟨k, i, h⟩
      exact ⟨k, i, (hsem v k i).mpr h⟩
  · intro kv hkv
    exact (hinv.2 kv.1 kv.2 ((mapGet_eq_some_iff _ hinv.1 kv.1 kv.2).mpr hkv)).1

/-- Instance of C7: the example of the specification. -/
theorem ReverseMapping_spec_witness :
    ((∀ v k i, mapGet2 (ReverseMapping exMapping) v k = some i ↔
          mapGet2 exMapping k i = some v) ∧
        (∀ v, (mapGet (ReverseMapping exMapping) v).isSome = true ↔
          ∃ k i, mapGet2 exMapping k i = some v) ∧
        WellFormed (ReverseMapping exMapping)) ∧
      ReverseMapping exMapping = [("1", [("a", "x"), ("b", "y")])] :=
  ⟨ReverseMapping_spec exMapping (by decide) (by decide), by decide⟩


/-! ## Proofs: HTTP helpers -/

theorem performRequest_sent {δ : Type} (lib : HttpLib δ) (t : Transport)
    (sent : List Request) (req : Request) (dst : δ) :
    (performRequest lib t sent req dst).sent = sent ++ [req] := by
  unfold performRequest clientDo
  cases t sent req with
  | error err => rfl
  | ok response =>
    simp only
    cases h : checkStatusCode lib.unmarshalCISL response with
    | mk e r => cases e <;> rfl

theorem performRequest_no_error_of_ok {δ : Type} (lib : HttpLib δ) (t : Transport)
    (sent : List Request) (req : Request) (dst : δ) (response : Response)
    (ht : t sent req = .ok response) (hs : response.StatusCode = 200) :
    (performRequest lib t sent req dst).err = none := by
  have hc : checkStatusCode lib.unmarshalCISL response = (none, response) := by
    simp [checkStatusCode, StatusOK, hs]
  simp only [performRequest, clientDo, ht, hc]

/-- C4 (violated by the code): the parser reports the decoding failure, but
`performRequest` drops the value `parser(response)` returns. With a transport answering
200 and a body that does not decode, each of the five helpers returns a nil error. -/
theorem decode_failure_not_surfaced :
    (newJSONParser exLibNoDecode ""
        { StatusCode := 200, Status := "200 OK", Body := .ok "<html></html>" }).1 ≠ none ∧
      (PostJSONResource exLibNoDecode exTransportOk [] "http://h/p" none "t" "" "").err = none ∧
      (PostFormData exLibNoDecode exTransportOk [] "http://h/p" "t" none "" "").err = none ∧
      (FetchResource exLibNoDecode exTransportOk [] "http://h/p" none "t" "").err = none ∧
      (PutJSONResource exLibNoDecode exTransportOk [] "http://h/p" none "" "t" "").err = none ∧
      (DeleteJSONResource exLibNoDecode exTransportOk [] "http://h/p" none "" "t" "").err =
        none := by
  decide

/-- C10 (violated by the code): `FetchResource` passes the request to `client.Do` itself
and then again through `performRequest`; with a transport answering 200 the same GET
request is sent twice. -/
theorem FetchResource_sends_twice :
    (FetchResource exLibNoDecode exTransportOk [] "http://h/p" none "t" "").sent.length = 2 ∧
      (FetchResource exLibNoDecode exTransportOk [] "http://h/p" none "t" "").sent =
        [{ Method := "GET", URL := "http://h/p", RawQuery := some "",
           Header := [("Content-Type", "application/json"), ("Authorization", "Bearer t")],
           Body := none },
         { Method := "GET", URL := "http://h/p", RawQuery := some "",
           Header := [("Content-Type", "application/json"), ("Authorization", "Bearer t")],
           Body := none }] := by
  decide


/-! ## Proofs: `FCSRequestBuilder` -/

/-- C5: for a Claim object whose request body serializes successfully,
`FCSRequestBuilder` makes exactly one RPC call; with a non-empty IcsRefNo it is PATCH to
"/v1/fcs/claim/" followed by the reference, with an empty one it is POST to
"/v1/fcs/claim". -/
theorem FCSRequestBuilder_claim_route {α ρ : Type} (lib : RpcLib α ρ) (calls : List RpcCall)
    (value : Option (Claim α)) (body : String) :
    (GetIcsRefNo value ≠ "" → lib.marshalMutateClaim value = .ok body →
        (FCSRequestBuilder lib calls (.claim value)).calls =
          calls ++ [{ Method := "PATCH", Path := "/v1/fcs/claim/" ++ GetIcsRefNo value,
                      Body := body }]) ∧
      (GetIcsRefNo value = "" → lib.marshalCreateClaim value = .ok body →
        (FCSRequestBuilder lib calls (.claim value)).calls =
          calls ++ [{ Method := "POST", Path := "/v1/fcs/claim", Body := body }]) := by
  constructor
  · intro href hm
    have hp : CreateClaimPath ++ "/" = "/v1/fcs/claim/" := by decide
    simp only [FCSRequestBuilder, if_pos href, hm, hp]
    cases lib.call calls _ lib.zero with
    | mk e r => cases e <;> rfl
  · intro href hm
    have hn : ¬ GetIcsRefNo value ≠ "" := fun h => h href
    simp only [FCSRequestBuilder, if_neg hn, hm]
    cases lib.call calls _ lib.zero with
    | mk e r => cases e <;> rfl

/-- Instance of C5: a claim with reference R1 and a claim without reference. -/
theorem FCSRequestBuilder_claim_route_witness :
    (FCSRequestBuilder exRpcLib [] (.claim (some { IcsRefNo := "R1", rest := () }))).calls =
        [] ++ [{ Method := "PATCH",
                 Path := "/v1/fcs/claim/" ++ GetIcsRefNo (some { IcsRefNo := "R1", rest := () }),
                 Body := "\x7b\x7d" }] ∧
      (FCSRequestBuilder exRpcLib [] (.claim (some { IcsRefNo := "", rest := () }))).calls =
        [] ++ [{ Method := "POST", Path := "/v1/fcs/claim", Body := "\x7b\x7d" }] :=
  ⟨(FCSRequestBuilder_claim_route exRpcLib [] (some { IcsRefNo := "R1", rest := () })
      "\x7b\x7d").1 (by decide) rfl,
   (FCSRequestBuilder_claim_route exRpcLib [] (some { IcsRefNo := "", rest := () })
      "\x7b\x7d").2 rfl rfl⟩

end Utils
